import Mathlib

/-!
Verification of the TokenFactory bonding-curve sale contract
(src/hardhat/contracts/TokenFactory.sol) against its specification.

The contract is shallowly embedded as an executable state machine:
addresses are `Nat`, wei amounts are `Nat`, mappings are association
lists read with a Solidity-style zero default, and each external
function becomes a `step` case returning `Except String FactoryState`
(`error` = revert with the contract's revert string, whole call rolled
back).  Ghost accumulators (payments received, amounts withdrawn,
settlement payouts, settled tokens) are threaded through the state to
express the conservation properties; they never influence control flow.
-/

namespace TokenFactory

/-- `TARGET = 3 ether`: ETH amount that closes a sale. -/
def TARGET : Nat := 3 * 10 ^ 18

/-- `TOKEN_LIMIT = 500_000 ether`: token amount that closes a sale. -/
def TOKEN_LIMIT : Nat := 500000 * 10 ^ 18

/-- `TOTAL_SUPPLY = 1_000_000 ether`: tokens minted to the factory per sale. -/
def TOTAL_SUPPLY : Nat := 1000000 * 10 ^ 18

/-- `MIN_PURCHASE = 1 ether`. -/
def MIN_PURCHASE : Nat := 10 ^ 18

/-- `MAX_PURCHASE = 10_000 ether`. -/
def MAX_PURCHASE : Nat := 10000 * 10 ^ 18

/-- The `TokenSale` struct of the contract. -/
structure TokenSale where
  token : Nat
  name : String
  creator : Nat
  sold : Nat
  raised : Nat
  isOpen : Bool
deriving Repr, DecidableEq

/-- The default value a Solidity `mapping(address => TokenSale)` returns
for a key that was never written: every field zero-initialised. -/
def defaultSale : TokenSale :=
  { token := 0, name := "", creator := 0, sold := 0, raised := 0, isOpen := false }

/-- Association-list read with default, mirroring Solidity mapping reads. -/
def lookupD {κ α : Type} [DecidableEq κ] (m : List (κ × α)) (k : κ) (d : α) : α :=
  match m with
  | [] => d
  | (k', v) :: rest => if k' = k then v else lookupD rest k d

/-- Association-list write, mirroring Solidity mapping writes. -/
def setK {κ α : Type} [DecidableEq κ] (m : List (κ × α)) (k : κ) (v : α) : List (κ × α) :=
  match m with
  | [] => [(k, v)]
  | (k', v') :: rest => if k' = k then (k, v) :: rest else (k', v') :: setK rest k v

/-- Add `n` to the `Nat` entry at key `k` (used for external balances). -/
def bumpK {κ : Type} [DecidableEq κ] (m : List (κ × Nat)) (k : κ) (n : Nat) : List (κ × Nat) :=
  setK m k (lookupD m k 0 + n)

/-- State of the deployed factory together with the balances it controls
and ghost accounting used only in specifications.

* `ethBalance` — native currency held by the factory contract;
* `sales`, `tokenAddresses`, `totalTokens`, `fee`, `owner` — the
  contract's storage;
* `tokenBal` — for each created token, the factory's balance of it
  (the `Token` constructor mints `TOTAL_SUPPLY` to the factory);
* `extTok` — token balances of external accounts, keyed by
  (account, token);
* `extEth` — native currency the factory has sent to each external
  account;
* ghost sums `createPaid`, `buyPaid`, `withdrawn`, `paidOut`,
  `feesAccrued` and the ghost list `settled` (tokens with at least one
  successful settlement). -/
structure FactoryState where
  fee : Nat
  owner : Nat
  totalTokens : Nat
  tokenAddresses : List Nat
  sales : List (Nat × TokenSale)
  tokenBal : List (Nat × Nat)
  extTok : List ((Nat × Nat) × Nat)
  extEth : List (Nat × Nat)
  ethBalance : Nat
  createPaid : Nat
  buyPaid : Nat
  withdrawn : Nat
  paidOut : Nat
  feesAccrued : Nat
  settled : List Nat
deriving Repr, DecidableEq

/-- Constructor: `fee` and `owner` set at deployment, everything else empty. -/
def deployFactory (fee owner : Nat) : FactoryState :=
  { fee := fee, owner := owner, totalTokens := 0, tokenAddresses := [],
    sales := [], tokenBal := [], extTok := [], extEth := [],
    ethBalance := 0, createPaid := 0, buyPaid := 0, withdrawn := 0,
    paidOut := 0, feesAccrued := 0, settled := [] }

/-- `getCostPerToken` of the contract:
`cost = step * (_sold / increment) + floor` with
`floor = step = 0.0001 ether` and `increment = 10_000 ether`. -/
def getCostPerToken (sold : Nat) : Nat :=
  let floor := 10 ^ 14
  let step := 10 ^ 14
  let increment := 10000 * 10 ^ 18
  step * (sold / increment) + floor

/-- One external call to the factory.  `value` is the attached payment
(`msg.value`), `sender` is `msg.sender`.  For the two operations that
push native currency to an external account, `accepts` is the
environment's choice of whether that low-level call succeeds when the
balance suffices (a recipient may reject funds). -/
inductive Op where
  | create (sender value : Nat) (nm sym : String)
  | buy (sender value token amount : Nat)
  | deposit (sender token : Nat) (accepts : Bool)
  | withdraw (sender amount : Nat) (accepts : Bool)
deriving Repr, DecidableEq

/-- One call, faithful to the contract: each Solidity `require` becomes
an `if`, failing into `Except.error` with the contract's revert string;
a failed low-level ETH transfer reverts the whole call. -/
def step (s : FactoryState) (op : Op) : Except String FactoryState :=
  match op with
  | .create sender value nm _sym =>
    if s.fee ≤ value then
      let t := s.tokenAddresses.length + 1
      .ok { s with
        tokenAddresses := s.tokenAddresses ++ [t],
        totalTokens := s.totalTokens + 1,
        sales := setK s.sales t
          { token := t, name := nm, creator := sender, sold := 0, raised := 0, isOpen := true },
        tokenBal := setK s.tokenBal t TOTAL_SUPPLY,
        ethBalance := s.ethBalance + value,
        createPaid := s.createPaid + value,
        feesAccrued := s.feesAccrued + s.fee }
    else .error "Factory: Creator fee not met"
  | .buy sender value t amount =>
    let sale := lookupD s.sales t defaultSale
    if sale.isOpen = true then
      if MIN_PURCHASE ≤ amount then
        if amount ≤ MAX_PURCHASE then
          let cost := getCostPerToken sale.sold * (amount / 10 ^ 18)
          if cost ≤ value then
            let sold' := sale.sold + amount
            let raised' := sale.raised + cost
            let open' := if TOKEN_LIMIT ≤ sold' ∨ TARGET ≤ raised' then false else sale.isOpen
            if amount ≤ lookupD s.tokenBal t 0 then
              .ok { s with
                sales := setK s.sales t
                  { sale with sold := sold', raised := raised', isOpen := open' },
                tokenBal := setK s.tokenBal t (lookupD s.tokenBal t 0 - amount),
                extTok := bumpK s.extTok (sender, t) amount,
                ethBalance := s.ethBalance + value,
                buyPaid := s.buyPaid + value }
            else .error "ERC20: transfer amount exceeds balance"
          else .error "Factory: Insufficient ETH received"
        else .error "Factory: Amount exceeded"
      else .error "Factory: Amount too low"
    else .error "Factory: Buying closed"
  | .deposit _sender t accepts =>
    let sale := lookupD s.sales t defaultSale
    if sale.isOpen = false then
      let bal := lookupD s.tokenBal t 0
      if sale.raised ≤ s.ethBalance ∧ accepts = true then
        .ok { s with
          tokenBal := setK s.tokenBal t 0,
          extTok := bumpK s.extTok (sale.creator, t) bal,
          ethBalance := s.ethBalance - sale.raised,
          extEth := bumpK s.extEth sale.creator sale.raised,
          paidOut := s.paidOut + sale.raised,
          settled := s.settled ++ [t] }
      else .error "Factory: ETH transfer failed"
    else .error "Factory: Target not reached"
  | .withdraw sender amount accepts =>
    if sender = s.owner then
      if amount ≤ s.ethBalance ∧ accepts = true then
        .ok { s with
          ethBalance := s.ethBalance - amount,
          extEth := bumpK s.extEth s.owner amount,
          withdrawn := s.withdrawn + amount }
      else .error "Factory: ETH transfer failed"
    else .error "Factory: Not owner"

/-- Transaction semantics: a reverted call leaves the state unchanged. -/
def exec (s : FactoryState) (op : Op) : FactoryState :=
  match step s op with
  | .ok s' => s'
  | .error _ => s

/-- Run a sequence of calls. -/
def run (s : FactoryState) (ops : List Op) : FactoryState :=
  ops.foldl exec s

/-- A state is reachable when some call sequence produces it from a
freshly deployed factory. -/
def Reachable (s : FactoryState) : Prop :=
  ∃ fee owner ops, run (deployFactory fee owner) ops = s

/-- The sale record the contract reports for token `t` (zero-initialised
default for a never-created token, as a Solidity mapping does). -/
def saleAt (s : FactoryState) (t : Nat) : TokenSale :=
  lookupD s.sales t defaultSale

/-- The inductive invariant of the factory's reachable states. -/
structure Inv (s : FactoryState) : Prop where
  salesKeys : ∀ p ∈ s.sales, p.1 ∈ s.tokenAddresses
  tokBalZero : ∀ t, t ∉ s.tokenAddresses → lookupD s.tokenBal t 0 = 0
  addrBound : ∀ t ∈ s.tokenAddresses, 1 ≤ t ∧ t ≤ s.tokenAddresses.length
  openIff : ∀ t ∈ s.tokenAddresses,
    ((saleAt s t).isOpen = true ↔
      (saleAt s t).sold < TOKEN_LIMIT ∧ (saleAt s t).raised < TARGET)
  soldLe : ∀ t ∈ s.tokenAddresses, (saleAt s t).sold ≤ 20000 * (saleAt s t).raised
  soldLt : ∀ t ∈ s.tokenAddresses, (saleAt s t).sold < 7 * 10 ^ 22
  balOpen : ∀ t ∈ s.tokenAddresses, (saleAt s t).isOpen = true →
    lookupD s.tokenBal t 0 = TOTAL_SUPPLY - (saleAt s t).sold
  ghostEq : s.ethBalance + s.withdrawn + s.paidOut = s.createPaid + s.buyPaid

/-- A small reachable sample state: one token created for free. -/
def sampleCreated : FactoryState :=
  run (deployFactory 0 0) [.create 1 0 "A" "A"]

/-- C9's reachability component as stated by the claim: some call
sequence drives a created sale's `sold` strictly past `TOKEN_LIMIT`. -/
def OvershootReachable : Prop :=
  ∃ fee owner ops t,
    t ∈ (run (deployFactory fee owner) ops).tokenAddresses ∧
    TOKEN_LIMIT < (saleAt (run (deployFactory fee owner) ops) t).sold

/-- Sum over created sales of `raised`, counting only sales never yet
settled — the "raised funds for sales not yet settled" term of the
specification's conservation formula. -/
def unsettledRaised (s : FactoryState) : Nat :=
  (s.tokenAddresses.map (fun t => if t ∈ s.settled then 0 else (saleAt s t).raised)).sum

/-- The balance the specification's conservation formula predicts:
(sum of fees collected) + (raised for sales not yet settled)
− (withdrawn by owner) − (paid out by settlement). -/
def specLedgerBalance (s : FactoryState) : Int :=
  (s.feesAccrued : Int) + (unsettledRaised s : Int)
    - (s.withdrawn : Int) - (s.paidOut : Int)

/-- A deployment with `fee = 2 wei` followed by an honest history: one
creation paying exactly the fee, two exact-cost buys closing the sale
at the 3-ether target, and one successful settlement. -/
def c1Ops : List Op :=
  [ .create 1 2 "A" "A",
    .buy 2 (10 ^ 18) 1 (10000 * 10 ^ 18),
    .buy 2 (2 * 10 ^ 18) 1 (10000 * 10 ^ 18),
    .deposit 9 1 true ]

/-- Two free creations; both sales are driven to the 3-ether target by
exact-cost buys; only the first sale is settled. -/
def c2Ops : List Op :=
  [ .create 1 0 "A" "A",
    .buy 2 (10 ^ 18) 1 (10000 * 10 ^ 18),
    .buy 2 (2 * 10 ^ 18) 1 (10000 * 10 ^ 18),
    .create 3 0 "B" "B",
    .buy 2 (10 ^ 18) 2 (10000 * 10 ^ 18),
    .buy 2 (2 * 10 ^ 18) 2 (10000 * 10 ^ 18),
    .deposit 9 1 true ]

theorem lookupD_setK_self {κ α : Type} [DecidableEq κ]
    (m : List (κ × α)) (k : κ) (v : α) (d : α) :
    lookupD (setK m k v) k d = v := by
  induction m with
  | nil => simp [setK, lookupD]
  | cons p rest ih =>
    obtain ⟨k', v'⟩ := p
    by_cases h : k' = k
    · simp [setK, lookupD, h]
    · simp [setK, lookupD, h, ih]

theorem lookupD_setK_ne {κ α : Type} [DecidableEq κ]
    (m : List (κ × α)) (k k' : κ) (v : α) (d : α) (h : k' ≠ k) :
    lookupD (setK m k v) k' d = lookupD m k' d := by
  have hk : k ≠ k' := fun hh => h hh.symm
  induction m with
  | nil =>
    simp only [setK, lookupD, if_neg hk]
  | cons p rest ih =>
    obtain ⟨k₀, v₀⟩ := p
    by_cases h0 : k₀ = k
    · subst h0
      simp only [setK, if_pos rfl, lookupD, if_neg hk]
    · simp only [setK, if_neg h0, lookupD]
      by_cases h1 : k₀ = k'
      · simp only [if_pos h1]
      · simp only [if_neg h1, ih]

theorem mem_setK {κ α : Type} [DecidableEq κ]
    {m : List (κ × α)} {k : κ} {v : α} {p : κ × α}
    (hp : p ∈ setK m k v) : p = (k, v) ∨ p ∈ m := by
  induction m with
  | nil => simpa [setK] using hp
  | cons q rest ih =>
    obtain ⟨k₀, v₀⟩ := q
    by_cases h0 : k₀ = k
    · simp only [setK, if_pos h0, List.mem_cons] at hp
      rcases hp with h | h
      · exact Or.inl h
      · exact Or.inr (List.mem_cons_of_mem _ h)
    · simp only [setK, if_neg h0, List.mem_cons] at hp
      rcases hp with h | h
      · exact Or.inr (by simp [h])
      · rcases ih h with h' | h'
        · exact Or.inl h'
        · exact Or.inr (List.mem_cons_of_mem _ h')

theorem lookupD_default_of_not_key {κ α : Type} [DecidableEq κ]
    {m : List (κ × α)} {k : κ} (d : α)
    (h : ∀ p ∈ m, p.1 ≠ k) : lookupD m k d = d := by
  induction m with
  | nil => rfl
  | cons p rest ih =>
    obtain ⟨k₀, v₀⟩ := p
    have hk : k₀ ≠ k := h (k₀, v₀) (List.mem_cons_self _ _)
    simp only [lookupD, if_neg hk]
    exact ih fun q hq => h q (List.mem_cons_of_mem _ hq)



theorem saleAt_default_of_uncreated {s : FactoryState} (hs : Inv s)
    {t : Nat} (ht : t ∉ s.tokenAddresses) : saleAt s t = defaultSale := by
  refine lookupD_default_of_not_key _ fun p hp hpt => ?_
  exact ht (hpt ▸ hs.salesKeys p hp)

theorem mem_of_isOpen {s : FactoryState} (hs : Inv s) {t : Nat}
    (h : (saleAt s t).isOpen = true) : t ∈ s.tokenAddresses := by
  by_contra hmem
  rw [saleAt_default_of_uncreated hs hmem] at h
  simp [defaultSale] at h

theorem inv_deploy (fee owner : Nat) : Inv (deployFactory fee owner) := by
  constructor <;> simp [deployFactory, lookupD]

theorem inv_step_create {s s' : FactoryState} (hs : Inv s)
    {sender value : Nat} {nm sym : String}
    (h : step s (.create sender value nm sym) = .ok s') : Inv s' := by
  by_cases hfee : s.fee ≤ value
  · simp only [step, if_pos hfee, Except.ok.injEq] at h
    subst h
    set t0 := s.tokenAddresses.length + 1 with ht0
    have hne : ∀ t ∈ s.tokenAddresses, t ≠ t0 := by
      intro t ht heq
      have := (hs.addrBound t ht).2
      omega
    have hmem : ∀ t, t ∈ s.tokenAddresses ++ [t0] ↔ t ∈ s.tokenAddresses ∨ t = t0 := by
      intro t; simp [List.mem_append]
    have hsale_old : ∀ t ∈ s.tokenAddresses,
        lookupD (setK s.sales t0
          { token := t0, name := nm, creator := sender, sold := 0, raised := 0, isOpen := true })
          t defaultSale = saleAt s t := by
      intro t ht
      exact lookupD_setK_ne _ _ _ _ _ (hne t ht)
    have hsale_new :
        lookupD (setK s.sales t0
          { token := t0, name := nm, creator := sender, sold := 0, raised := 0, isOpen := true })
          t0 defaultSale =
          { token := t0, name := nm, creator := sender, sold := 0, raised := 0, isOpen := true } :=
      lookupD_setK_self _ _ _ _
    constructor
    · intro p hp
      rcases mem_setK hp with h' | h'
      · subst h'
        simp [hmem]
      · simp [hmem, Or.inl (hs.salesKeys p h')]
    · intro t ht
      rw [hmem] at ht
      push_neg at ht
      simp only
      rw [lookupD_setK_ne _ _ _ _ _ ht.2]
      exact hs.tokBalZero t ht.1
    · intro t ht
      simp only [List.length_append, List.length_singleton]
      rw [hmem] at ht
      rcases ht with ht | ht
      · have := hs.addrBound t ht; omega
      · omega
    · intro t ht
      rw [hmem] at ht
      rcases ht with ht | ht
      · simpa [saleAt, hsale_old t ht] using hs.openIff t ht
      · subst ht
        simp [saleAt, hsale_new, TOKEN_LIMIT, TARGET]
    · intro t ht
      rw [hmem] at ht
      rcases ht with ht | ht
      · simpa [saleAt, hsale_old t ht] using hs.soldLe t ht
      · subst ht
        simp [saleAt, hsale_new]
    · intro t ht
      rw [hmem] at ht
      rcases ht with ht | ht
      · simpa [saleAt, hsale_old t ht] using hs.soldLt t ht
      · subst ht
        simp [saleAt, hsale_new]
    · intro t ht hopen
      rw [hmem] at ht
      rcases ht with ht | ht
      · simp only [saleAt] at hopen ⊢
        rw [hsale_old t ht] at hopen
        rw [lookupD_setK_ne _ _ _ _ _ (hne t ht), hsale_old t ht]
        exact hs.balOpen t ht hopen
      · subst ht
        simp only [saleAt, hsale_new, lookupD_setK_self]
        simp
    · have := hs.ghostEq
      simp only
      omega
  · simp [step, if_neg hfee] at h

theorem inv_step_buy {s s' : FactoryState} (hs : Inv s)
    {sender value t amount : Nat}
    (h : step s (.buy sender value t amount) = .ok s') : Inv s' := by
  simp only [step] at h
  split at h
  case isFalse => simp at h
  case isTrue hopen =>
    split at h
    case isFalse => simp at h
    case isTrue hmin =>
      split at h
      case isFalse => simp at h
      case isTrue hmax =>
        split at h
        case isFalse => simp at h
        case isTrue hcost =>
          split at h
          case isFalse => simp at h
          case isTrue hbal =>
            rw [Except.ok.injEq] at h
            subst h
            have hopen' : (saleAt s t).isOpen = true := hopen
            have htmem : t ∈ s.tokenAddresses := mem_of_isOpen hs hopen'
            have hthresh := (hs.openIff t htmem).mp hopen'
            have hsoldle := hs.soldLe t htmem
            have hbalance := hs.balOpen t htmem hopen'
            have h14 : (10:Nat) ^ 14 = 100000000000000 := by norm_num
            have h18 : (10:Nat) ^ 18 = 1000000000000000000 := by norm_num
            have hprice : 10 ^ 14 ≤ getCostPerToken (saleAt s t).sold := by
              simp only [getCostPerToken]
              exact Nat.le_add_left _ _
            have hcostge : 10 ^ 14 * (amount / 10 ^ 18) ≤
                getCostPerToken (saleAt s t).sold * (amount / 10 ^ 18) :=
              Nat.mul_le_mul_right _ hprice
            have hdm : 10 ^ 18 * (amount / 10 ^ 18) + amount % 10 ^ 18 = amount :=
              Nat.div_add_mod amount _
            have hmod : amount % 10 ^ 18 < 10 ^ 18 := Nat.mod_lt _ (by positivity)
            have hk1 : 1 ≤ amount / 10 ^ 18 := by
              rw [Nat.one_le_div_iff (by positivity)]
              exact hmin
            -- the purchased quantity is at most 20000 times its cost
            have hamt : amount ≤ 20000 * (getCostPerToken (saleAt s t).sold * (amount / 10 ^ 18)) := by
              generalize hq : amount / 10 ^ 18 = q at hcostge hdm hk1
              generalize hc : getCostPerToken (saleAt s t).sold * q = c at hcostge
              rw [h14] at hcostge
              rw [h18] at hdm hmod
              omega
            have hTLn : TOKEN_LIMIT = 500000000000000000000000 := by norm_num [TOKEN_LIMIT]
            have hTGn : TARGET = 3000000000000000000 := by norm_num [TARGET]
            have hTSn : TOTAL_SUPPLY = 1000000000000000000000000 := by norm_num [TOTAL_SUPPLY]
            have hMXn : MAX_PURCHASE = 10000000000000000000000 := by norm_num [MAX_PURCHASE]
            rw [hMXn] at hmax
            have hsoldsmall : (saleAt s t).sold ≤ 20000 * (TARGET - 1) := by
              calc (saleAt s t).sold ≤ 20000 * (saleAt s t).raised := hsoldle
              _ ≤ 20000 * (TARGET - 1) := by
                  have := hthresh.2
                  exact Nat.mul_le_mul_left _ (by omega)
            rw [hTGn] at hsoldsmall
            constructor
            · intro p hp
              simp only at hp ⊢
              rcases mem_setK hp with h' | h'
              · rw [h']
                exact htmem
              · exact hs.salesKeys p h'
            · intro u hu
              simp only at hu ⊢
              have hut : u ≠ t := fun he => hu (he ▸ htmem)
              rw [lookupD_setK_ne _ _ _ _ _ hut]
              exact hs.tokBalZero u hu
            · intro u hu
              simp only at hu ⊢
              exact hs.addrBound u hu
            · intro u hu
              simp only [saleAt] at *
              by_cases hut : u = t
              · subst hut
                rw [lookupD_setK_self]
                simp only
                by_cases hclose : TOKEN_LIMIT ≤ (lookupD s.sales u defaultSale).sold + amount ∨
                    TARGET ≤ (lookupD s.sales u defaultSale).raised +
                      getCostPerToken (lookupD s.sales u defaultSale).sold * (amount / 10 ^ 18)
                · rw [if_pos hclose]
                  simp only [Bool.false_eq_true, false_iff]
                  omega
                · rw [if_neg hclose, hopen]
                  simp only [true_iff]
                  omega
              · rw [lookupD_setK_ne _ _ _ _ _ hut]
                exact hs.openIff u hu
            · intro u hu
              simp only [saleAt] at *
              by_cases hut : u = t
              · subst hut
                rw [lookupD_setK_self]
                simp only
                omega
              · rw [lookupD_setK_ne _ _ _ _ _ hut]
                exact hs.soldLe u hu
            · intro u hu
              simp only [saleAt] at *
              by_cases hut : u = t
              · subst hut
                rw [lookupD_setK_self]
                simp only
                omega
              · rw [lookupD_setK_ne _ _ _ _ _ hut]
                exact hs.soldLt u hu
            · intro u hu hopen2
              simp only [saleAt] at *
              by_cases hut : u = t
              · subst hut
                rw [lookupD_setK_self] at hopen2
                rw [lookupD_setK_self, lookupD_setK_self]
                simp only at hopen2 ⊢
                rw [hbalance]
                omega
              · rw [lookupD_setK_ne _ _ _ _ _ hut] at hopen2 ⊢
                rw [lookupD_setK_ne _ _ _ _ _ hut]
                exact hs.balOpen u hu hopen2
            · have := hs.ghostEq
              simp only
              omega

theorem inv_step_deposit {s s' : FactoryState} (hs : Inv s)
    {sender t : Nat} {accepts : Bool}
    (h : step s (.deposit sender t accepts) = .ok s') : Inv s' := by
  simp only [step] at h
  split at h
  case isFalse => simp at h
  case isTrue hclosed =>
    split at h
    case isFalse => simp at h
    case isTrue hsucc =>
      rw [Except.ok.injEq] at h
      subst h
      constructor
      · intro p hp
        exact hs.salesKeys p hp
      · intro u hu
        simp only at hu ⊢
        by_cases hut : u = t
        · subst hut
          rw [lookupD_setK_self]
        · rw [lookupD_setK_ne _ _ _ _ _ hut]
          exact hs.tokBalZero u hu
      · exact hs.addrBound
      · exact hs.openIff
      · exact hs.soldLe
      · exact hs.soldLt
      · intro u hu hopen2
        simp only [saleAt] at *
        have hut : u ≠ t := by
          intro he
          subst he
          rw [hopen2] at hclosed
          simp at hclosed
        rw [lookupD_setK_ne _ _ _ _ _ hut]
        exact hs.balOpen u hu hopen2
      · have := hs.ghostEq
        have := hsucc.1
        simp only
        omega

theorem inv_step_withdraw {s s' : FactoryState} (hs : Inv s)
    {sender amount : Nat} {accepts : Bool}
    (h : step s (.withdraw sender amount accepts) = .ok s') : Inv s' := by
  simp only [step] at h
  split at h
  case isFalse => simp at h
  case isTrue howner =>
    split at h
    case isFalse => simp at h
    case isTrue hsucc =>
      rw [Except.ok.injEq] at h
      subst h
      constructor
      · intro p hp
        exact hs.salesKeys p hp
      · exact hs.tokBalZero
      · exact hs.addrBound
      · exact hs.openIff
      · exact hs.soldLe
      · exact hs.soldLt
      · exact hs.balOpen
      · have := hs.ghostEq
        have := hsucc.1
        simp only
        omega

theorem inv_step {s s' : FactoryState} (hs : Inv s) {op : Op}
    (h : step s op = .ok s') : Inv s' := by
  cases op with
  | create sender value nm sym => exact inv_step_create hs h
  | buy sender value t amount => exact inv_step_buy hs h
  | deposit sender t accepts => exact inv_step_deposit hs h
  | withdraw sender amount accepts => exact inv_step_withdraw hs h

theorem inv_exec {s : FactoryState} (hs : Inv s) (op : Op) : Inv (exec s op) := by
  unfold exec
  cases hst : step s op with
  | ok s' => exact inv_step hs hst
  | error e => exact hs

theorem inv_run {s : FactoryState} (hs : Inv s) (ops : List Op) : Inv (run s ops) := by
  induction ops generalizing s with
  | nil => exact hs
  | cons op rest ih => exact ih (inv_exec hs op)

theorem inv_reachable {s : FactoryState} (hs : Reachable s) : Inv s := by
  obtain ⟨fee, owner, ops, hrun⟩ := hs
  exact hrun ▸ inv_run (inv_deploy fee owner) ops

theorem exec_of_ok {s s' : FactoryState} {op : Op}
    (h : step s op = .ok s') : exec s op = s' := by
  unfold exec
  rw [h]

theorem exec_of_error {s : FactoryState} {op : Op} {e : String}
    (h : step s op = .error e) : exec s op = s := by
  unfold exec
  rw [h]

theorem lookupD_bumpK {κ : Type} [DecidableEq κ]
    (m : List (κ × Nat)) (k k' : κ) (n : Nat) :
    lookupD (bumpK m k n) k' 0 =
      if k' = k then lookupD m k 0 + n else lookupD m k' 0 := by
  by_cases h : k' = k
  · subst h
    rw [if_pos rfl]
    exact lookupD_setK_self _ _ _ _
  · rw [if_neg h]
    exact lookupD_setK_ne _ _ _ _ _ h



/-- C3: `getCostPerToken` is the pure staircase
`floor + step * (unitsSold / increment)` with
`floor = step = 0.0001 ether = 10^14 wei` and
`increment = 10,000 whole units = 10^22 wei`, and in particular yields
0.0001 ether at 0 and at 9,999 units sold, 0.0002 ether at exactly
10,000 units (the truncating division steps up at the boundary), and
0.0003 ether at 25,000 units. -/
theorem c3_pricing_staircase :
    (∀ sold : Nat,
        getCostPerToken sold = 10 ^ 14 + 10 ^ 14 * (sold / (10000 * 10 ^ 18)))
    ∧ getCostPerToken 0 = 10 ^ 14
    ∧ getCostPerToken (9999 * 10 ^ 18) = 10 ^ 14
    ∧ getCostPerToken (10000 * 10 ^ 18) = 2 * 10 ^ 14
    ∧ getCostPerToken (25000 * 10 ^ 18) = 3 * 10 ^ 14 := by
  refine ⟨fun sold => ?_, by norm_num [getCostPerToken],
    by norm_num [getCostPerToken], by norm_num [getCostPerToken],
    by norm_num [getCostPerToken]⟩
  simp only [getCostPerToken]
  omega

/-- C4: in every reachable state, a created sale's `isOpen` flag is
`true` exactly when neither closing threshold has been reached
(`sold < TOKEN_LIMIT` and `raised < TARGET`).  Since the state
immediately after any buy is itself reachable, a buy whose resulting
`sold` or `raised` reaches a threshold leaves `isOpen = false`, and a
sale that has never reached either threshold still has `isOpen = true`. -/
theorem c4_closure {s : FactoryState} (hs : Reachable s) {t : Nat}
    (ht : t ∈ s.tokenAddresses) :
    (saleAt s t).isOpen = true ↔
      ((saleAt s t).sold < TOKEN_LIMIT ∧ (saleAt s t).raised < TARGET) :=
  (inv_reachable hs).openIff t ht

/-- Witness for C4 at a concrete reachable state: the freshly created
sale of `sampleCreated` is open and below both thresholds. -/
theorem c4_closure_witness :
    (saleAt sampleCreated 1).isOpen = true ↔
      ((saleAt sampleCreated 1).sold < TOKEN_LIMIT ∧
        (saleAt sampleCreated 1).raised < TARGET) :=
  c4_closure ⟨0, 0, [.create 1 0 "A" "A"], rfl⟩ (by decide)

/-- One call never decreases `sold` or `raised` of an existing sale and
never re-opens a closed sale; the sale also stays registered. -/
theorem exec_sale_mono {s : FactoryState} (hs : Inv s) (op : Op) {t : Nat}
    (ht : t ∈ s.tokenAddresses) :
    t ∈ (exec s op).tokenAddresses ∧
    (saleAt s t).sold ≤ (saleAt (exec s op) t).sold ∧
    (saleAt s t).raised ≤ (saleAt (exec s op) t).raised ∧
    ((saleAt s t).isOpen = false → (saleAt (exec s op) t).isOpen = false) := by
  cases hst : step s op with
  | error e =>
    rw [exec_of_error hst]
    exact ⟨ht, le_refl _, le_refl _, fun h => h⟩
  | ok s' =>
    rw [exec_of_ok hst]
    cases op with
    | create sender value nm sym =>
      have hne : t ≠ s.tokenAddresses.length + 1 := by
        have := (hs.addrBound t ht).2
        omega
      simp only [step] at hst
      split at hst
      case isFalse => simp at hst
      case isTrue hfee =>
        rw [Except.ok.injEq] at hst
        subst hst
        refine ⟨by simp [ht], ?_, ?_, ?_⟩ <;>
          simp only [saleAt, lookupD_setK_ne _ _ _ _ _ hne]
        · exact le_refl _
        · exact le_refl _
        · exact fun h => h
    | buy sender value u amount =>
      simp only [step] at hst
      split at hst
      case isFalse => simp at hst
      case isTrue hopen =>
        split at hst
        case isFalse => simp at hst
        case isTrue hmin =>
          split at hst
          case isFalse => simp at hst
          case isTrue hmax =>
            split at hst
            case isFalse => simp at hst
            case isTrue hcost =>
              split at hst
              case isFalse => simp at hst
              case isTrue hbal =>
                rw [Except.ok.injEq] at hst
                subst hst
                by_cases hut : t = u
                · subst hut
                  refine ⟨ht, ?_, ?_, ?_⟩ <;>
                    simp only [saleAt, lookupD_setK_self]
                  · exact Nat.le_add_right _ _
                  · exact Nat.le_add_right _ _
                  · intro hfalse
                    rw [hfalse] at hopen
                    simp at hopen
                · have hut' : t ≠ u := hut
                  refine ⟨ht, ?_, ?_, ?_⟩ <;>
                    simp only [saleAt, lookupD_setK_ne _ _ _ _ _ hut']
                  · exact le_refl _
                  · exact le_refl _
                  · exact fun h => h
    | deposit sender u accepts =>
      simp only [step] at hst
      split at hst
      case isFalse => simp at hst
      case isTrue hclosed =>
        split at hst
        case isFalse => simp at hst
        case isTrue hsucc =>
          rw [Except.ok.injEq] at hst
          subst hst
          exact ⟨ht, le_refl _, le_refl _, fun h => h⟩
    | withdraw sender amount accepts =>
      simp only [step] at hst
      split at hst
      case isFalse => simp at hst
      case isTrue howner =>
        split at hst
        case isFalse => simp at hst
        case isTrue hsucc =>
          rw [Except.ok.injEq] at hst
          subst hst
          exact ⟨ht, le_refl _, le_refl _, fun h => h⟩

/-- Monotonicity transported along a whole call sequence. -/
theorem run_sale_mono {s : FactoryState} (hs : Inv s) (ops : List Op) {t : Nat}
    (ht : t ∈ s.tokenAddresses) :
    t ∈ (run s ops).tokenAddresses ∧
    (saleAt s t).sold ≤ (saleAt (run s ops) t).sold ∧
    (saleAt s t).raised ≤ (saleAt (run s ops) t).raised ∧
    ((saleAt s t).isOpen = false → (saleAt (run s ops) t).isOpen = false) := by
  induction ops generalizing s with
  | nil => exact ⟨ht, le_refl _, le_refl _, fun h => h⟩
  | cons op rest ih =>
    obtain ⟨h1, h2, h3, h4⟩ := exec_sale_mono hs op ht
    obtain ⟨g1, g2, g3, g4⟩ := ih (inv_exec hs op) h1
    exact ⟨g1, le_trans h2 g2, le_trans h3 g3, fun h => g4 (h4 h)⟩

/-- C6: across any further sequence of operations applied to a
reachable state, an existing sale's `sold` and `raised` never decrease,
and once its `isOpen` flag is `false` it never reverts to `true`. -/
theorem c6_monotonicity {s : FactoryState} (hs : Reachable s) (ops : List Op)
    {t : Nat} (ht : t ∈ s.tokenAddresses) :
    (saleAt s t).sold ≤ (saleAt (run s ops) t).sold ∧
    (saleAt s t).raised ≤ (saleAt (run s ops) t).raised ∧
    ((saleAt s t).isOpen = false → (saleAt (run s ops) t).isOpen = false) :=
  (run_sale_mono (inv_reachable hs) ops ht).2

/-- Witness for C6: the sale of `sampleCreated` stays monotone across a
concrete later buy. -/
theorem c6_monotonicity_witness :
    (saleAt sampleCreated 1).sold ≤
      (saleAt (run sampleCreated [.buy 2 (10 ^ 18) 1 (10 ^ 18)]) 1).sold ∧
    (saleAt sampleCreated 1).raised ≤
      (saleAt (run sampleCreated [.buy 2 (10 ^ 18) 1 (10 ^ 18)]) 1).raised ∧
    ((saleAt sampleCreated 1).isOpen = false →
      (saleAt (run sampleCreated [.buy 2 (10 ^ 18) 1 (10 ^ 18)]) 1).isOpen = false) :=
  c6_monotonicity ⟨0, 0, [.create 1 0 "A" "A"], rfl⟩ _ (by decide)

/-- C5: `buy` rejects — leaving the state unchanged — exactly when, in
this order and each with its own revert reason: the sale is not open,
the quantity is below `MIN_PURCHASE`, the quantity is above
`MAX_PURCHASE`, or the attached payment is below
`getCostPerToken(pre-purchase sold) * (quantity / 10^18)`.  Otherwise it
succeeds and the factory retains the entire attached payment (any
excess over the computed cost included), the cost — not the payment —
being what is added to `raised`. -/
theorem c5_buy_rejections {s : FactoryState} (hs : Reachable s)
    (sender value t amount : Nat) :
    (¬ (saleAt s t).isOpen = true →
      step s (.buy sender value t amount) = .error "Factory: Buying closed"
        ∧ exec s (.buy sender value t amount) = s) ∧
    ((saleAt s t).isOpen = true → amount < MIN_PURCHASE →
      step s (.buy sender value t amount) = .error "Factory: Amount too low"
        ∧ exec s (.buy sender value t amount) = s) ∧
    ((saleAt s t).isOpen = true → MIN_PURCHASE ≤ amount → MAX_PURCHASE < amount →
      step s (.buy sender value t amount) = .error "Factory: Amount exceeded"
        ∧ exec s (.buy sender value t amount) = s) ∧
    ((saleAt s t).isOpen = true → MIN_PURCHASE ≤ amount → amount ≤ MAX_PURCHASE →
      value < getCostPerToken (saleAt s t).sold * (amount / 10 ^ 18) →
      step s (.buy sender value t amount) = .error "Factory: Insufficient ETH received"
        ∧ exec s (.buy sender value t amount) = s) ∧
    ((saleAt s t).isOpen = true → MIN_PURCHASE ≤ amount → amount ≤ MAX_PURCHASE →
      getCostPerToken (saleAt s t).sold * (amount / 10 ^ 18) ≤ value →
      ∃ s', step s (.buy sender value t amount) = .ok s' ∧
        s'.ethBalance = s.ethBalance + value ∧
        (saleAt s' t).sold = (saleAt s t).sold + amount ∧
        (saleAt s' t).raised =
          (saleAt s t).raised + getCostPerToken (saleAt s t).sold * (amount / 10 ^ 18)) := by
  have hinv := inv_reachable hs
  refine ⟨?_, ?_, ?_, ?_, ?_⟩
  · intro hno
    simp only [saleAt] at hno
    have he : step s (.buy sender value t amount) = .error "Factory: Buying closed" := by
      simp only [step]
      rw [if_neg hno]
    exact ⟨he, exec_of_error he⟩
  · intro hopen hlow
    simp only [saleAt] at hopen
    have he : step s (.buy sender value t amount) = .error "Factory: Amount too low" := by
      simp only [step]
      rw [if_pos hopen, if_neg (Nat.not_le.mpr hlow)]
    exact ⟨he, exec_of_error he⟩
  · intro hopen hmin hbig
    simp only [saleAt] at hopen
    have he : step s (.buy sender value t amount) = .error "Factory: Amount exceeded" := by
      simp only [step]
      rw [if_pos hopen, if_pos hmin, if_neg (Nat.not_le.mpr hbig)]
    exact ⟨he, exec_of_error he⟩
  · intro hopen hmin hmax hpoor
    simp only [saleAt] at hopen hpoor
    have he : step s (.buy sender value t amount)
        = .error "Factory: Insufficient ETH received" := by
      simp only [step]
      rw [if_pos hopen, if_pos hmin, if_pos hmax, if_neg (Nat.not_le.mpr hpoor)]
    exact ⟨he, exec_of_error he⟩
  · intro hopen hmin hmax hpaid
    have htmem : t ∈ s.tokenAddresses := mem_of_isOpen hinv hopen
    have hbalance := hinv.balOpen t htmem hopen
    have hsoldlt := hinv.soldLt t htmem
    have hbal : amount ≤ lookupD s.tokenBal t 0 := by
      rw [hbalance]
      have hTSn : TOTAL_SUPPLY = 1000000000000000000000000 := by norm_num [TOTAL_SUPPLY]
      have hMXn : MAX_PURCHASE = 10000000000000000000000 := by norm_num [MAX_PURCHASE]
      rw [hMXn] at hmax
      omega
    simp only [saleAt] at hopen hpaid
    have he : step s (.buy sender value t amount) = .ok
        { s with
          sales := setK s.sales t
            { lookupD s.sales t defaultSale with
              sold := (lookupD s.sales t defaultSale).sold + amount,
              raised := (lookupD s.sales t defaultSale).raised +
                getCostPerToken (lookupD s.sales t defaultSale).sold * (amount / 10 ^ 18),
              isOpen := if TOKEN_LIMIT ≤ (lookupD s.sales t defaultSale).sold + amount ∨
                  TARGET ≤ (lookupD s.sales t defaultSale).raised +
                    getCostPerToken (lookupD s.sales t defaultSale).sold * (amount / 10 ^ 18)
                then false else (lookupD s.sales t defaultSale).isOpen },
          tokenBal := setK s.tokenBal t (lookupD s.tokenBal t 0 - amount),
          extTok := bumpK s.extTok (sender, t) amount,
          ethBalance := s.ethBalance + value,
          buyPaid := s.buyPaid + value } := by
      simp only [step]
      rw [if_pos hopen, if_pos hmin, if_pos hmax, if_pos hpaid, if_pos hbal]
    refine ⟨_, he, rfl, ?_, ?_⟩
    · simp only [saleAt, lookupD_setK_self]
    · simp only [saleAt, lookupD_setK_self]

/-- Witness for C5: on a concrete reachable state, a buy of one whole
unit paying exactly the floor price succeeds with the payment retained. -/
theorem c5_buy_rejections_witness :
    ∃ s', step sampleCreated (.buy 2 (10 ^ 14) 1 (10 ^ 18)) = .ok s' ∧
      s'.ethBalance = sampleCreated.ethBalance + 10 ^ 14 ∧
      (saleAt s' 1).sold = (saleAt sampleCreated 1).sold + 10 ^ 18 ∧
      (saleAt s' 1).raised = (saleAt sampleCreated 1).raised +
        getCostPerToken (saleAt sampleCreated 1).sold * (10 ^ 18 / 10 ^ 18) :=
  (c5_buy_rejections ⟨0, 0, [.create 1 0 "A" "A"], rfl⟩ 2 (10 ^ 14) 1
    (10 ^ 18)).2.2.2.2 (by decide) (by decide) (by decide) (by decide)

/-- C7: `deposit` (settlement) rejects while the sale is still open;
when the sale is closed it either succeeds — moving the factory's entire
remaining balance of the token and exactly the recorded `raised` amount
of native currency to the creator — or, when the native-currency
transfer cannot be made (insufficient balance or recipient refusing),
rejects with the whole call rolled back: no state change at all, hence
no partial payout. -/
theorem c7_settlement (s : FactoryState) (sender t : Nat) (accepts : Bool) :
    ((saleAt s t).isOpen = true →
      step s (.deposit sender t accepts) = .error "Factory: Target not reached"
        ∧ exec s (.deposit sender t accepts) = s) ∧
    ((saleAt s t).isOpen = false →
      ((saleAt s t).raised ≤ s.ethBalance ∧ accepts = true →
        ∃ s', step s (.deposit sender t accepts) = .ok s' ∧
          lookupD s'.tokenBal t 0 = 0 ∧
          lookupD s'.extTok ((saleAt s t).creator, t) 0 =
            lookupD s.extTok ((saleAt s t).creator, t) 0 + lookupD s.tokenBal t 0 ∧
          s'.ethBalance = s.ethBalance - (saleAt s t).raised ∧
          lookupD s'.extEth (saleAt s t).creator 0 =
            lookupD s.extEth (saleAt s t).creator 0 + (saleAt s t).raised) ∧
      (¬ ((saleAt s t).raised ≤ s.ethBalance ∧ accepts = true) →
        step s (.deposit sender t accepts) = .error "Factory: ETH transfer failed"
          ∧ exec s (.deposit sender t accepts) = s)) := by
  refine ⟨?_, fun hclosed => ⟨?_, ?_⟩⟩
  · intro hopen
    simp only [saleAt] at hopen
    have he : step s (.deposit sender t accepts) = .error "Factory: Target not reached" := by
      simp only [step]
      rw [if_neg (by rw [hopen]; simp)]
    exact ⟨he, exec_of_error he⟩
  · intro hok
    simp only [saleAt] at hclosed hok
    have he : step s (.deposit sender t accepts) = .ok
        { s with
          tokenBal := setK s.tokenBal t 0,
          extTok := bumpK s.extTok ((lookupD s.sales t defaultSale).creator, t)
            (lookupD s.tokenBal t 0),
          ethBalance := s.ethBalance - (lookupD s.sales t defaultSale).raised,
          extEth := bumpK s.extEth (lookupD s.sales t defaultSale).creator
            (lookupD s.sales t defaultSale).raised,
          paidOut := s.paidOut + (lookupD s.sales t defaultSale).raised,
          settled := s.settled ++ [t] } := by
      simp only [step]
      rw [if_pos hclosed, if_pos hok]
    refine ⟨_, he, ?_, ?_, rfl, ?_⟩
    · simp only [lookupD_setK_self]
    · simp [saleAt, lookupD_bumpK]
    · simp [saleAt, lookupD_bumpK]
  · intro hfail
    simp only [saleAt] at hclosed hfail
    have he : step s (.deposit sender t accepts) = .error "Factory: ETH transfer failed" := by
      simp only [step]
      rw [if_pos hclosed, if_neg hfail]
    exact ⟨he, exec_of_error he⟩

/-- Witness for C7: settling the closed sale of a concrete reachable
state pays the creator its full recorded `raised` and drains the
factory's token balance. -/
theorem c7_settlement_witness :
    ∃ s', step (run (deployFactory 0 0)
        [.create 1 0 "A" "A",
         .buy 2 (10 ^ 18) 1 (10000 * 10 ^ 18),
         .buy 2 (2 * 10 ^ 18) 1 (10000 * 10 ^ 18)]) (.deposit 9 1 true) = .ok s' ∧
      lookupD s'.tokenBal 1 0 = 0 ∧
      lookupD s'.extTok ((saleAt (run (deployFactory 0 0)
        [.create 1 0 "A" "A",
         .buy 2 (10 ^ 18) 1 (10000 * 10 ^ 18),
         .buy 2 (2 * 10 ^ 18) 1 (10000 * 10 ^ 18)]) 1).creator, 1) 0 =
        lookupD (run (deployFactory 0 0)
        [.create 1 0 "A" "A",
         .buy 2 (10 ^ 18) 1 (10000 * 10 ^ 18),
         .buy 2 (2 * 10 ^ 18) 1 (10000 * 10 ^ 18)]).extTok ((saleAt (run (deployFactory 0 0)
        [.create 1 0 "A" "A",
         .buy 2 (10 ^ 18) 1 (10000 * 10 ^ 18),
         .buy 2 (2 * 10 ^ 18) 1 (10000 * 10 ^ 18)]) 1).creator, 1) 0 +
          lookupD (run (deployFactory 0 0)
        [.create 1 0 "A" "A",
         .buy 2 (10 ^ 18) 1 (10000 * 10 ^ 18),
         .buy 2 (2 * 10 ^ 18) 1 (10000 * 10 ^ 18)]).tokenBal 1 0 ∧
      s'.ethBalance = (run (deployFactory 0 0)
        [.create 1 0 "A" "A",
         .buy 2 (10 ^ 18) 1 (10000 * 10 ^ 18),
         .buy 2 (2 * 10 ^ 18) 1 (10000 * 10 ^ 18)]).ethBalance -
        (saleAt (run (deployFactory 0 0)
        [.create 1 0 "A" "A",
         .buy 2 (10 ^ 18) 1 (10000 * 10 ^ 18),
         .buy 2 (2 * 10 ^ 18) 1 (10000 * 10 ^ 18)]) 1).raised ∧
      lookupD s'.extEth (saleAt (run (deployFactory 0 0)
        [.create 1 0 "A" "A",
         .buy 2 (10 ^ 18) 1 (10000 * 10 ^ 18),
         .buy 2 (2 * 10 ^ 18) 1 (10000 * 10 ^ 18)]) 1).creator 0 =
        lookupD (run (deployFactory 0 0)
        [.create 1 0 "A" "A",
         .buy 2 (10 ^ 18) 1 (10000 * 10 ^ 18),
         .buy 2 (2 * 10 ^ 18) 1 (10000 * 10 ^ 18)]).extEth (saleAt (run (deployFactory 0 0)
        [.create 1 0 "A" "A",
         .buy 2 (10 ^ 18) 1 (10000 * 10 ^ 18),
         .buy 2 (2 * 10 ^ 18) 1 (10000 * 10 ^ 18)]) 1).creator 0 +
          (saleAt (run (deployFactory 0 0)
        [.create 1 0 "A" "A",
         .buy 2 (10 ^ 18) 1 (10000 * 10 ^ 18),
         .buy 2 (2 * 10 ^ 18) 1 (10000 * 10 ^ 18)]) 1).raised :=
  ((c7_settlement (run (deployFactory 0 0)
      [.create 1 0 "A" "A",
       .buy 2 (10 ^ 18) 1 (10000 * 10 ^ 18),
       .buy 2 (2 * 10 ^ 18) 1 (10000 * 10 ^ 18)]) 9 1 true).2
    (by decide)).1 (by decide)

/-- C8: `withdraw` rejects — leaving the state unchanged — exactly when
the caller is not the owner or the native-currency transfer fails
(insufficient balance or recipient refusing); called by the owner with
an amount the balance can fund and an accepting recipient, it moves
exactly that amount from the factory's balance to the owner. -/
theorem c8_withdraw_access (s : FactoryState) (sender amount : Nat) (accepts : Bool) :
    (sender ≠ s.owner →
      step s (.withdraw sender amount accepts) = .error "Factory: Not owner"
        ∧ exec s (.withdraw sender amount accepts) = s) ∧
    (sender = s.owner → amount ≤ s.ethBalance → accepts = true →
      ∃ s', step s (.withdraw sender amount accepts) = .ok s' ∧
        s'.ethBalance = s.ethBalance - amount ∧
        lookupD s'.extEth s.owner 0 = lookupD s.extEth s.owner 0 + amount ∧
        s'.sales = s.sales ∧ s'.tokenBal = s.tokenBal) ∧
    (sender = s.owner → ¬ (amount ≤ s.ethBalance ∧ accepts = true) →
      step s (.withdraw sender amount accepts) = .error "Factory: ETH transfer failed"
        ∧ exec s (.withdraw sender amount accepts) = s) := by
  refine ⟨?_, ?_, ?_⟩
  · intro hno
    have he : step s (.withdraw sender amount accepts) = .error "Factory: Not owner" := by
      simp only [step]
      rw [if_neg hno]
    exact ⟨he, exec_of_error he⟩
  · intro howner hbal hacc
    have he : step s (.withdraw sender amount accepts) = .ok
        { s with
          ethBalance := s.ethBalance - amount,
          extEth := bumpK s.extEth s.owner amount,
          withdrawn := s.withdrawn + amount } := by
      simp only [step]
      rw [if_pos howner, if_pos ⟨hbal, hacc⟩]
    refine ⟨_, he, rfl, ?_, rfl, rfl⟩
    simp [lookupD_bumpK]
  · intro howner hfail
    have he : step s (.withdraw sender amount accepts)
        = .error "Factory: ETH transfer failed" := by
      simp only [step]
      rw [if_pos howner, if_neg hfail]
    exact ⟨he, exec_of_error he⟩

/-- Witness for C8: a non-owner withdrawal on a concrete state is
rejected with no state change, and an owner withdrawal of 1 wei from a
funded concrete state succeeds. -/
theorem c8_withdraw_access_witness :
    (step sampleCreated (.withdraw 3 0 true) = .error "Factory: Not owner"
      ∧ exec sampleCreated (.withdraw 3 0 true) = sampleCreated) ∧
    ∃ s', step sampleCreated (.withdraw 0 0 true) = .ok s' ∧
      s'.ethBalance = sampleCreated.ethBalance - 0 ∧
      lookupD s'.extEth sampleCreated.owner 0 =
        lookupD sampleCreated.extEth sampleCreated.owner 0 + 0 ∧
      s'.sales = sampleCreated.sales ∧ s'.tokenBal = sampleCreated.tokenBal :=
  ⟨(c8_withdraw_access sampleCreated 3 0 true).1 (by decide),
   (c8_withdraw_access sampleCreated 0 0 true).2.1 (by decide) (by decide) rfl⟩

/-- C10: for a token on which `create` was never called, the sale
record read by `deposit` is the zero-initialised default — in
particular `isOpen = false`, `creator = 0`, `raised = 0` — so the
state check `require(sale.isOpen == false)` passes exactly as for a
closed sale and settlement proceeds (succeeding with an accepting
recipient), transferring zero tokens and zero native currency instead
of failing with a distinct does-not-exist rejection. -/
theorem c10_settle_nonexistent {s : FactoryState} (hs : Reachable s) {t : Nat}
    (ht : t ∉ s.tokenAddresses) (sender : Nat) :
    saleAt s t = defaultSale ∧
    (saleAt s t).isOpen = false ∧
    (saleAt s t).creator = 0 ∧
    (saleAt s t).raised = 0 ∧
    ∃ s', step s (.deposit sender t true) = .ok s' ∧
      s'.ethBalance = s.ethBalance ∧
      s'.sales = s.sales ∧
      (∀ a, lookupD s'.extEth a 0 = lookupD s.extEth a 0) ∧
      (∀ p, lookupD s'.extTok p 0 = lookupD s.extTok p 0) := by
  have hinv := inv_reachable hs
  have hdef : lookupD s.sales t defaultSale = defaultSale :=
    saleAt_default_of_uncreated hinv ht
  have hbal0 : lookupD s.tokenBal t 0 = 0 := hinv.tokBalZero t ht
  have hclosed : (lookupD s.sales t defaultSale).isOpen = false := by
    rw [hdef]
    rfl
  have hcond : (lookupD s.sales t defaultSale).raised ≤ s.ethBalance ∧ True :=
    ⟨by rw [hdef]; exact Nat.zero_le _, trivial⟩
  have he : step s (.deposit sender t true) = .ok
      { s with
        tokenBal := setK s.tokenBal t 0,
        extTok := bumpK s.extTok ((lookupD s.sales t defaultSale).creator, t)
          (lookupD s.tokenBal t 0),
        ethBalance := s.ethBalance - (lookupD s.sales t defaultSale).raised,
        extEth := bumpK s.extEth (lookupD s.sales t defaultSale).creator
          (lookupD s.sales t defaultSale).raised,
        paidOut := s.paidOut + (lookupD s.sales t defaultSale).raised,
        settled := s.settled ++ [t] } := by
    simp only [step]
    rw [if_pos hclosed, if_pos hcond]
  refine ⟨hdef, by simp only [saleAt]; rw [hdef]; rfl,
    by simp only [saleAt]; rw [hdef]; rfl,
    by simp only [saleAt]; rw [hdef]; rfl, _, he, ?_, rfl, ?_, ?_⟩
  · simp only [hdef]
    rfl
  · intro a
    rw [lookupD_bumpK, hdef]
    by_cases ha : a = defaultSale.creator
    · rw [if_pos ha, ha]
      rfl
    · rw [if_neg ha]
  · intro p
    rw [lookupD_bumpK, hbal0]
    by_cases hp : p = ((lookupD s.sales t defaultSale).creator, t)
    · rw [if_pos hp, hp, Nat.add_zero]
    · rw [if_neg hp]

/-- Witness for C10: settling the never-created token 7 on a concrete
reachable state succeeds while moving nothing. -/
theorem c10_settle_nonexistent_witness :
    saleAt sampleCreated 7 = defaultSale ∧
    (saleAt sampleCreated 7).isOpen = false ∧
    (saleAt sampleCreated 7).creator = 0 ∧
    (saleAt sampleCreated 7).raised = 0 ∧
    ∃ s', step sampleCreated (.deposit 2 7 true) = .ok s' ∧
      s'.ethBalance = sampleCreated.ethBalance ∧
      s'.sales = sampleCreated.sales ∧
      (∀ a, lookupD s'.extEth a 0 = lookupD sampleCreated.extEth a 0) ∧
      (∀ p, lookupD s'.extTok p 0 = lookupD sampleCreated.extTok p 0) :=
  c10_settle_nonexistent ⟨0, 0, [.create 1 0 "A" "A"], rfl⟩ (by decide) 2



/-- C9 counterexample: the claimed overshoot past `TOKEN_LIMIT` is not
reachable by any call sequence.  Every buy of `a` wei-units costs at
least `0.0001 ether × ⌊a / 10^18⌋`, which forces
`sold ≤ 20000 × raised`; while a sale is open `raised < TARGET = 3
ether`, so `sold` stays below `7 × 10^22` — far below
`TOKEN_LIMIT = 5 × 10^23`.  The `raised ≥ TARGET` threshold always
closes a sale long before the supply cap can bind. -/
theorem c9_no_overshoot : ¬ OvershootReachable := by
  rintro ⟨fee, owner, ops, t, ht, hgt⟩
  have hinv := inv_run (inv_deploy fee owner) ops
  have hlt := hinv.soldLt t ht
  have hTLn : TOKEN_LIMIT = 500000000000000000000000 := by norm_num [TOKEN_LIMIT]
  rw [hTLn] at hgt
  have h7 : (7 : Nat) * 10 ^ 22 = 70000000000000000000000 := by norm_num
  rw [h7] at hlt
  omega

/-- C9 amended: in every reachable state each created sale's `sold` is
strictly below `TOKEN_LIMIT + MAX_PURCHASE` as claimed — but in fact
strictly below `TOKEN_LIMIT` itself (even below `7 × 10^22`): although
`buy` adds the full requested quantity before its threshold check and
so could in isolation overshoot a threshold by up to `MAX_PURCHASE`,
the funding target closes every sale before `sold` can approach the
supply cap, so the cap is never exceeded. -/
theorem c9_sold_bounded {s : FactoryState} (hs : Reachable s) {t : Nat}
    (ht : t ∈ s.tokenAddresses) :
    (saleAt s t).sold < TOKEN_LIMIT + MAX_PURCHASE ∧
    (saleAt s t).sold < TOKEN_LIMIT ∧
    (saleAt s t).sold < 7 * 10 ^ 22 := by
  have hlt := (inv_reachable hs).soldLt t ht
  have hTLn : TOKEN_LIMIT = 500000000000000000000000 := by norm_num [TOKEN_LIMIT]
  have hMXn : MAX_PURCHASE = 10000000000000000000000 := by norm_num [MAX_PURCHASE]
  have h7 : (7 : Nat) * 10 ^ 22 = 70000000000000000000000 := by norm_num
  rw [hTLn, hMXn, h7] at *
  omega

/-- Witness for C9's amended bound at a concrete reachable state. -/
theorem c9_sold_bounded_witness :
    (saleAt sampleCreated 1).sold < TOKEN_LIMIT + MAX_PURCHASE ∧
    (saleAt sampleCreated 1).sold < TOKEN_LIMIT ∧
    (saleAt sampleCreated 1).sold < 7 * 10 ^ 22 :=
  c9_sold_bounded ⟨0, 0, [.create 1 0 "A" "A"], rfl⟩ (by decide)







/-- C1 counterexample: after the honest history `c1Ops` the factory
holds exactly its 2 wei of fee revenue, but the specification's formula
predicts `2 − 3·10^18`: the settled sale's `raised` has left the
"unsettled" term *and* is subtracted again as a settlement payout, so
the claimed identity double-counts every settlement. -/
theorem c1_formula_fails :
    specLedgerBalance (run (deployFactory 2 0) c1Ops)
      ≠ ((run (deployFactory 2 0) c1Ops).ethBalance : Int) := by
  decide

/-- C1 amended: the conservation identity that does hold at every
observation point, for every deployment and call sequence: the
factory's held balance plus everything it has paid out (owner
withdrawals and settlement payouts) equals everything it has received
(full payments attached to successful `create` calls — fee plus any
retained excess — and full payments attached to successful `buy` calls
— computed cost plus any retained excess).  No operation creates or
destroys funds. -/
theorem c1_conservation (fee owner : Nat) (ops : List Op) :
    (run (deployFactory fee owner) ops).ethBalance
      + (run (deployFactory fee owner) ops).withdrawn
      + (run (deployFactory fee owner) ops).paidOut
    = (run (deployFactory fee owner) ops).createPaid
      + (run (deployFactory fee owner) ops).buyPaid :=
  (inv_run (inv_deploy fee owner) ops).ghostEq



/-- C2: settlement double-pays.  After `c2Ops`, sale 1 is closed and
already settled once: its creator (account 1) has received exactly its
`raised` of 3 ether.  A second `deposit` on the same token succeeds
again and transfers another 3 ether of native currency to the creator
— `raised` is never zeroed, so the second call pays the recorded
amount out of the other sale's proceeds rather than transferring zero. -/
theorem c2_double_payout :
    (saleAt (run (deployFactory 0 0) c2Ops) 1).isOpen = false ∧
    (saleAt (run (deployFactory 0 0) c2Ops) 1).raised = 3 * 10 ^ 18 ∧
    lookupD (run (deployFactory 0 0) c2Ops).extEth 1 0 = 3 * 10 ^ 18 ∧
    (step (run (deployFactory 0 0) c2Ops) (.deposit 9 1 true)).toOption
      = some (run (deployFactory 0 0) (c2Ops ++ [.deposit 9 1 true])) ∧
    lookupD (run (deployFactory 0 0) (c2Ops ++ [.deposit 9 1 true])).extEth 1 0
      = 6 * 10 ^ 18 := by
  decide

end TokenFactory
